import Mathlib

/-!
# Verification of the MText layout engine (mtext-renderer)

A shallow embedding of the `MTextProcessor` class from
`src/renderer/renderer.ts` together with the pieces of its collaborators
(`FontManager`, `TextStyle`, the parser's `ChangedProperties` records) that
the layout pass reads.  JavaScript numbers are modelled as `Rat`; the
JavaScript truthiness tests that the source performs on numbers and strings
are modelled explicitly (`jsOr`, `truthyInt`, non-empty string tests).
Mutable fields of the processor become fields of `ProcState`; every method
becomes a state transformer.  Emitted buffer geometries are recorded as
`Glyph` and `Seg` values carrying the line number and position at which the
source translates the corresponding geometry.
-/

namespace MTextRenderer

/-- A text shape returned by the glyph provider: only its advance width is
relevant to layout. Models `BaseTextShape` as consumed by the processor. -/
structure TextShape where
  width : Rat
deriving DecidableEq, Repr

/-- Font type as in `src/font`: `'shx'` (stroke) or `'mesh'` (filled). -/
inductive FontType where
  | shx
  | mesh
deriving DecidableEq, Repr

/-- The external glyph/font provider interface (`FontManager`), as read by
the processor: glyph lookup may fail (`Option`), the not-found placeholder
may itself be missing, scale factors and name replacement are total. -/
structure FontManager where
  getCharShape : Char → String → Rat → Option TextShape
  getFontScaleFactor : String → Rat
  getNotFoundTextShape : Rat → Option TextShape
  getFontType : String → FontType
  findAndReplaceFont : String → String

/-- `TextStyle` fields read by the processor. `bigFont` is a string whose
JavaScript truthiness is emptiness; `obliqueAngle` is read as
`style.obliqueAngle || 0`, so we store the already-defaulted value. -/
structure TextStyle where
  font : String
  bigFont : String
  fixedTextHeight : Rat
  obliqueAngle : Rat
deriving DecidableEq, Repr

/-- `MTextParagraphAlignment` from the parser package. -/
inductive MTextParagraphAlignment where
  | left
  | center
  | right
  | justified
  | distributed
deriving DecidableEq, Repr

/-- `MTextFlowDirection` from `src/renderer/types`. -/
inductive MTextFlowDirection where
  | leftToRight
  | topToBottom
  | bottomToTop
deriving DecidableEq, Repr

/-- The formatting context (`class Context` in `renderer.ts`): the snapshot
of all inline style attributes, pushed to a stack when a formatting group
opens and restored when it closes. -/
structure Context where
  font : String
  fontScaleFactor : Rat
  fontSize : Rat
  fontSizeScaleFactor : Rat
  color : Int
  underline : Bool
  overline : Bool
  strikeThrough : Bool
  obliqueAngle : Rat
  italic : Bool
  bold : Bool
  widthFactor : Rat
  wordSpace : Rat
  blankWidth : Rat
deriving DecidableEq, Repr

/-- `Context.clone()` produces a value copy; in a pure embedding a value
copy is the value itself. -/
def Context.clone (c : Context) : Context := c

/-- `MTextFormatOptions`. -/
structure MTextFormatOptions where
  fontSize : Rat
  widthFactor : Rat
  lineSpaceFactor : Rat
  horizontalAlignment : MTextParagraphAlignment
  maxWidth : Rat
  flowDirection : MTextFlowDirection
  byBlockColor : Int
  byLayerColor : Int
  removeFontExtension : Bool
deriving DecidableEq, Repr

/-- `fontFace` payload of a `ChangedProperties` record. -/
structure FontFaceChange where
  family : String
  style : Option String
  weight : Option Int
deriving DecidableEq, Repr

/-- A `{isRelative, value}` payload (width factor, cap height, tracking). -/
structure RelValue where
  isRelative : Bool
  value : Rat
deriving DecidableEq, Repr

/-- `paragraph` payload of a `ChangedProperties` record. -/
structure ParagraphChange where
  align : Option MTextParagraphAlignment
  indent : Option Rat
  left : Option Rat
  right : Option Rat
deriving DecidableEq, Repr

/-- The `changes` object of a `ChangedProperties` record; absent fields are
`none`. -/
structure Changes where
  fontFace : Option FontFaceChange
  aci : Option Int
  rgb : Option (Int × Int × Int)
  widthFactor : Option RelValue
  capHeight : Option RelValue
  charTrackingFactor : Option RelValue
  paragraph : Option ParagraphChange
  oblique : Option Rat
deriving DecidableEq, Repr

/-- A `Changes` value with every field absent. -/
def Changes.empty : Changes :=
  ⟨none, none, none, none, none, none, none, none⟩

/-- A `ChangedProperties` token payload from the parser: a command code
(`none` models `undefined`, i.e. a formatting-group close), the brace depth
at which it occurred, and the typed payload. -/
structure ChangedProperties where
  command : Option String
  depth : Nat
  changes : Changes
deriving DecidableEq, Repr

/-- A positioned glyph geometry emitted by `processChar`: the line counter
value at emission time and the translation (`charX`, `charY`) and width the
source applies to the shape's geometry. -/
structure Glyph where
  line : Nat
  x : Rat
  y : Rat
  width : Rat
deriving DecidableEq, Repr

/-- A line-segment geometry (decoration or fraction divider). -/
structure Seg where
  line : Nat
  x1 : Rat
  y1 : Rat
  x2 : Rat
  y2 : Rat
deriving DecidableEq, Repr

/-- The mutable fields of `MTextProcessor`, plus the record of emitted
geometry.  `contextStack` has its top at the head (JavaScript pushes and
pops at the array's end). -/
structure ProcState where
  totalHeight : Rat
  hOffset : Rat
  vOffset : Rat
  lineCount : Nat
  contextStack : List Context
  ctx : Context
  maxFontSize : Rat
  horizontalAlignment : MTextParagraphAlignment
  indent : Rat
  leftMargin : Rat
  rightMargin : Rat
  glyphs : List Glyph
  lineSegs : List Seg
deriving DecidableEq, Repr

/-- The read-only collaborators of one layout pass: style, font manager,
options, and the ACI palette resolver (`getColorByIndex` from
`src/common`, an external table). -/
structure Env where
  style : TextStyle
  fm : FontManager
  options : MTextFormatOptions
  getColorByIndex : Int → Int

/-- `LINE_SPACING_SCALE_FACTOR = 1.666666`. -/
def LINE_SPACING_SCALE_FACTOR : Rat := 1666666 / 1000000

/-- JavaScript `a || b` on numbers (`0` is falsy; `NaN` is not modelled). -/
def jsOr (a b : Rat) : Rat := if a = 0 then b else a

/-- JavaScript truthiness of an optional number (`undefined` and `0` are
falsy). -/
def truthyInt : Option Int → Bool
  | none => false
  | some v => v != 0

/-- JavaScript `w || Infinity` used as a line-width limit: `none` stands
for `Infinity` (no limit). -/
def effLimit (w : Rat) : Option Rat := if w = 0 then none else some w

/-- `x > limit` where `limit` may be `Infinity`. -/
def exceeds (limit : Option Rat) (x : Rat) : Bool :=
  match limit with
  | none => false
  | some l => decide (l < x)

/-- Getter `maxLineWidth`: usable width after margins. -/
def maxLineWidth (e : Env) (st : ProcState) : Rat :=
  e.options.maxWidth - st.leftMargin - st.rightMargin

/-- Getter `currentLineHeight`. -/
def currentLineHeight (e : Env) (st : ProcState) : Rat :=
  e.options.lineSpaceFactor * st.ctx.fontSize * LINE_SPACING_SCALE_FACTOR
    + st.maxFontSize

/-- Getter `totalHeight`: no line space after the last line; a single line
reports just its maximum font size. -/
def totalHeightGetter (e : Env) (st : ProcState) : Rat :=
  if st.lineCount = 1 then st.maxFontSize
  else st.totalHeight + currentLineHeight e st

/-- `calculateBlankWidthForFont`: half the text height for shx fonts,
0.3 times for others. -/
def calculateBlankWidthForFont (e : Env) (font : String) (fontSize : Rat) : Rat :=
  if e.fm.getFontType font = FontType.shx then fontSize * (5 / 10)
  else fontSize * (3 / 10)

/-- `calcuateLineParams`: refresh the font scale factor from the font
manager and recompute the font size from
`newFontHeight || defaultFontSize || fixedTextHeight`. -/
def calcuateLineParams (e : Env) (newFontHeight : Option Rat) (st : ProcState) : ProcState :=
  let fsf := e.fm.getFontScaleFactor st.ctx.font
  let nh := match newFontHeight with
    | some h => h
    | none => 0
  let fontHeight := jsOr nh (jsOr e.options.fontSize e.style.fixedTextHeight)
  { st with ctx := { st.ctx with
      fontScaleFactor := fsf
      fontSize := fontHeight * fsf * st.ctx.fontSizeScaleFactor } }

/-- Strip a trailing font-file extension, modelling the regular expression
`\.(ttf|otf|woff|shx)$`. -/
def removeFontExt (s : String) : String :=
  if s.endsWith ".ttf" ∨ s.endsWith ".otf" ∨ s.endsWith ".shx" then
    s.dropRight 4
  else if s.endsWith ".woff" then s.dropRight 5
  else s

/-- `changeFont`: resolve the (possibly extension-stripped) name through
the font manager, recompute the blank width, refresh line parameters. -/
def changeFont (e : Env) (fontName : String) (st : ProcState) : ProcState :=
  let processedFontName :=
    if e.options.removeFontExtension then removeFontExt fontName else fontName
  let newFont := e.fm.findAndReplaceFont processedFontName
  let st1 := { st with ctx := { st.ctx with
      font := newFont
      blankWidth := calculateBlankWidthForFont e newFont st.ctx.fontSize } }
  calcuateLineParams e none st1

/-- `changeFontSizeScaleFactor`: multiply the scale factor, then refresh. -/
def changeFontSizeScaleFactor (e : Env) (value : Rat) (st : ProcState) : ProcState :=
  calcuateLineParams e none
    { st with ctx := { st.ctx with
        fontSizeScaleFactor := st.ctx.fontSizeScaleFactor * value } }

/-- `changeFontHeight`: set the font size directly, then refresh (note the
refresh recomputes the size from the default height again). -/
def changeFontHeight (e : Env) (value : Rat) (st : ProcState) : ProcState :=
  calcuateLineParams e none
    { st with ctx := { st.ctx with
        fontSize := value * st.ctx.fontScaleFactor * st.ctx.fontSizeScaleFactor } }

/-- The `case 'c': case 'C':` body of `processFormat`: ACI index (with the
JavaScript truthiness test on the index) or absolute RGB. -/
def colorCase (e : Env) (ch : Changes) (st : ProcState) : ProcState :=
  { st with ctx := { st.ctx with color :=
      if (truthyInt ch.aci) then
        match ch.aci with
        | some a =>
          if a = 0 then e.options.byBlockColor
          else if a = 256 then e.options.byLayerColor
          else e.getColorByIndex a
        | none => st.ctx.color
      else
        match ch.rgb with
        | some rgb => rgb.1 * 65536 + rgb.2.1 * 256 + rgb.2.2
        | none => st.ctx.color } }

/-- The `case 'f': case 'F':` body when a `fontFace` payload is present. -/
def fontFaceCase (e : Env) (ff : FontFaceChange) (st : ProcState) : ProcState :=
  let st1 := changeFont e ff.family st
  let fontType := e.fm.getFontType st1.ctx.font
  { st1 with ctx :=
      if fontType = FontType.mesh then
        { st1.ctx with
          italic := ff.style = some "Italic"
          bold := decide (((match ff.weight with
            | some w => if w = 0 then 400 else w
            | none => 400) : Int) ≥ 700)
          obliqueAngle := e.style.obliqueAngle }
      else
        let ctx2 := { st1.ctx with italic := false, bold := false }
        if ff.style = some "Italic" then { ctx2 with obliqueAngle := 15 }
        else { ctx2 with obliqueAngle := e.style.obliqueAngle } }

/-- The `case 'p':` body: paragraph alignment, indent (also advancing the
cursor), and margins, all scaled by the default font size. -/
def paragraphCase (e : Env) (p : ParagraphChange) (st : ProcState) : ProcState :=
  { st with
    horizontalAlignment := match p.align with
      | some a => a
      | none => st.horizontalAlignment
    indent := match p.indent with
      | some v => v * e.options.fontSize
      | none => st.indent
    hOffset := match p.indent with
      | some v => st.hOffset + v * e.options.fontSize
      | none => st.hOffset
    leftMargin := match p.left with
      | some v => v * e.options.fontSize
      | none => st.leftMargin
    rightMargin := match p.right with
      | some v => v * e.options.fontSize
      | none => st.rightMargin }

/-- The command dispatch of `processFormat` for a defined command code.
The source `switch` falls through from `case 'f': case 'F':` (when no
`fontFace` payload is present) into the color case. -/
def processFormatCmd (e : Env) (st : ProcState) (chs : Changes) (cmd : String) : ProcState :=
  if cmd = "f" ∨ cmd = "F" then
    match chs.fontFace with
    | some ff => fontFaceCase e ff st
    | none => colorCase e chs st
  else if cmd = "c" ∨ cmd = "C" then
    colorCase e chs st
  else if cmd = "W" then
    match chs.widthFactor with
    | some wf =>
      if wf.isRelative then
        { st with ctx := { st.ctx with
            widthFactor := wf.value * e.options.maxWidth } }
      else
        { st with ctx := { st.ctx with
            widthFactor := wf.value * (93 / 100) } }
    | none => st
  else if cmd = "H" then
    match chs.capHeight with
    | some chh =>
      if chh.isRelative then changeFontSizeScaleFactor e chh.value st
      else changeFontHeight e chh.value st
    | none => st
  else if cmd = "T" then
    match chs.charTrackingFactor with
    | some tr =>
      if tr.isRelative then
        { st with ctx := { st.ctx with wordSpace := tr.value + 1 } }
      else
        { st with ctx := { st.ctx with wordSpace := tr.value } }
    | none => st
  else if cmd = "p" then
    match chs.paragraph with
    | some p => paragraphCase e p st
    | none => st
  else if cmd = "L" then
    { st with ctx := { st.ctx with underline := true } }
  else if cmd = "l" then
    { st with ctx := { st.ctx with underline := false } }
  else if cmd = "O" then
    { st with ctx := { st.ctx with overline := true } }
  else if cmd = "o" then
    { st with ctx := { st.ctx with overline := false } }
  else if cmd = "K" then
    { st with ctx := { st.ctx with strikeThrough := true } }
  else if cmd = "k" then
    { st with ctx := { st.ctx with strikeThrough := false } }
  else if cmd = "Q" then
    match chs.oblique with
    | some v => { st with ctx := { st.ctx with obliqueAngle := v } }
    | none => st
  else st

/-- `processFormat` of `MTextProcessor`: apply the command when one is
present (the `switch` hits only `default` on an undefined command). -/
def processFormat (e : Env) (st : ProcState) (item : ChangedProperties) : ProcState :=
  match item.command with
  | none => st
  | some cmd => processFormatCmd e st item.changes cmd

/-- `getCharShape` of `MTextProcessor`: primary font, then the configured
big font (a truthy, i.e. non-empty, `bigFont`), then an unscoped search
(empty font name), then the not-found placeholder; also records the
running maximum font size of the current line. -/
def getCharShape (e : Env) (st : ProcState) (c : Char) : Option TextShape × ProcState :=
  let size := st.ctx.fontSize
  let shape0 := e.fm.getCharShape c st.ctx.font size
  let shape1 :=
    if e.style.bigFont ≠ "" ∧ shape0 = none then
      e.fm.getCharShape c e.style.bigFont size
    else shape0
  let shape2 := match shape1 with
    | none => e.fm.getCharShape c "" size
    | some s => some s
  let shape3 := match shape2 with
    | none => e.fm.getNotFoundTextShape size
    | some s => some s
  let st1 := { st with maxFontSize :=
    if st.maxFontSize < size then size else st.maxFontSize }
  (shape3, st1)

/-- `processBlank`: advance the cursor by the current blank width. -/
def processBlank (st : ProcState) : ProcState :=
  { st with hOffset := st.hOffset + st.ctx.blankWidth }

/-- `currentLineHeight` does not depend on the cursor, so `startNewLine`
computes it once on the incoming state.  `startNewLine`: reset the
horizontal cursor, advance the vertical cursor by one line height
(direction given by the flow direction), bump the line counter, run the
alignment pass on the completed line (geometry translation, modelled by
the standalone alignment functions below), accumulate the total height,
and reset the per-line maximum font size. -/
def startNewLine (e : Env) (st : ProcState) : ProcState :=
  let lh := currentLineHeight e st
  { st with
    hOffset := 0
    vOffset := if e.options.flowDirection = MTextFlowDirection.bottomToTop
      then st.vOffset + lh else st.vOffset - lh
    lineCount := st.lineCount + 1
    totalHeight := if st.lineCount + 1 = 2 then st.maxFontSize
      else st.totalHeight + lh
    maxFontSize := 0 }

/-- The advance `processChar` adds for a resolved shape, and the advance
the word-measuring loop of `processWord` accounts for it: distributed
alignment ignores the word-space factor. -/
def shapeAdvance (st : ProcState) (shape : TextShape) : Rat :=
  if st.horizontalAlignment = MTextParagraphAlignment.distributed then
    shape.width * st.ctx.widthFactor
  else
    shape.width * st.ctx.wordSpace * st.ctx.widthFactor

/-- `processChar`: look the character up, fall back to a blank on a failed
lookup, wrap when the cursor already exceeds the usable width, emit the
positioned glyph, advance the cursor, and emit any active decoration
segments.  The oblique/italic skew and the synthetic-bold scale change the
outline only, not the recorded position, advance, or line. -/
def processChar (e : Env) (st : ProcState) (c : Char) : ProcState :=
  match getCharShape e st c with
  | (none, st1) => processBlank st1
  | (some shape, st1) =>
    let st2 :=
      if exceeds (effLimit (maxLineWidth e st1)) st1.hOffset then
        startNewLine e st1
      else st1
    let charX := st2.hOffset
    let charY :=
      if e.options.flowDirection = MTextFlowDirection.bottomToTop then st2.vOffset
      else st2.vOffset - st2.ctx.fontSize
    let charWidth := shape.width * st2.ctx.widthFactor
    let charHeight := st2.ctx.fontSize
    let lineOffset := charHeight * (5 / 100)
    { st2 with
      hOffset := st2.hOffset + shapeAdvance st2 shape
      glyphs := st2.glyphs ++ [Glyph.mk st2.lineCount charX charY charWidth]
      lineSegs := st2.lineSegs ++
        (if st2.ctx.underline then
          [Seg.mk st2.lineCount charX (charY - lineOffset)
            (charX + charWidth) (charY - lineOffset)]
         else []) ++
        (if st2.ctx.overline then
          [Seg.mk st2.lineCount charX (charY + charHeight + lineOffset)
            (charX + charWidth) (charY + charHeight + lineOffset)]
         else []) ++
        (if st2.ctx.strikeThrough then
          [Seg.mk st2.lineCount charX (charY + charHeight / 2 - charHeight * (2 / 10))
            (charX + charWidth) (charY + charHeight / 2 - charHeight * (2 / 10))]
         else []) }

/-- The character loop of `processWord` (step 3). -/
def processChars (e : Env) (st : ProcState) (cs : List Char) : ProcState :=
  cs.foldl (processChar e) st

/-- The measuring loop of `processWord` (step 1): sum the advances without
moving the cursor; a character with no shape accounts for the blank
width.  The lookups update the line's maximum font size as a side
effect, so the state is threaded through. -/
def measureWord (e : Env) (st : ProcState) : List Char → Rat × ProcState
  | [] => (0, st)
  | c :: cs =>
    match getCharShape e st c with
    | (some shape, st1) =>
      let rest := measureWord e st1 cs
      (shapeAdvance st1 shape + rest.1, rest.2)
    | (none, st1) =>
      let rest := measureWord e st1 cs
      (st1.ctx.blankWidth + rest.1, rest.2)

/-- `processWord`: measure the whole word first; if it would overflow the
usable width, start a new line before emitting any glyph; then render the
characters. -/
def processWord (e : Env) (st : ProcState) (word : List Char) : ProcState :=
  let m := measureWord e st word
  let st2 :=
    if exceeds (effLimit (maxLineWidth e m.2)) (m.2.hOffset + m.1) then
      startNewLine e m.2
    else m.2
  processChars e st2 word

/-- The width-measuring loops of `processStack`: plain sum of
`shape.width * widthFactor`, skipping unresolved characters. -/
def measureString (e : Env) (st : ProcState) : List Char → Rat × ProcState
  | [] => (0, st)
  | c :: cs =>
    match getCharShape e st c with
    | (some shape, st1) =>
      let rest := measureString e st1 cs
      (shape.width * st1.ctx.widthFactor + rest.1, rest.2)
    | (none, st1) =>
      let rest := measureString e st1 cs
      (rest.1, rest.2)

/-- `processStack`: measure numerator and denominator with the word space
forced to 1, center the narrower within `max` of the two widths; for the
`'^'` divider handle superscript-only and subscript-only at 70% size; for
fractions render numerator above and denominator below and, for `'/'` or
`'#'`, a divider segment spanning the stack width; finally restore the
vertical cursor and word space. -/
def processStack (e : Env) (st : ProcState) (numerator denominator : List Char)
    (divider : String) : ProcState :=
  let currentHOffset := st.hOffset
  let currentVOffset := st.vOffset
  let currentWordSpace := st.ctx.wordSpace
  let currentFontSize := st.ctx.fontSize
  let currentFontSizeScaleFactor := st.ctx.fontSizeScaleFactor
  let st1 := { st with
    hOffset := currentHOffset
    ctx := { st.ctx with wordSpace := 1 } }
  let m1 := measureString e st1 numerator
  let numeratorWidth := m1.1
  let st3 := { m1.2 with hOffset := currentHOffset }
  let m2 := measureString e st3 denominator
  let denominatorWidth := m2.1
  let st4 := m2.2
  let fractionWidth := max numeratorWidth denominatorWidth
  let numeratorOffset := (fractionWidth - numeratorWidth) / 2
  let denominatorOffset := (fractionWidth - denominatorWidth) / 2
  let stM :=
    if divider = "^" then
      let st5 := calcuateLineParams e none
        { st4 with ctx := { st4.ctx with
            fontSizeScaleFactor := currentFontSizeScaleFactor * (7 / 10) } }
      let st6 :=
        if numerator ≠ [] ∧ denominator = [] then
          let st5a := { st5 with
            hOffset := currentHOffset
            vOffset := currentVOffset + currentFontSize * (1 / 10) }
          let st5b := processChars e st5a numerator
          { st5b with hOffset := currentHOffset + numeratorWidth }
        else if numerator = [] ∧ denominator ≠ [] then
          let st5a := { st5 with
            hOffset := currentHOffset
            vOffset := currentVOffset - currentFontSize * (6 / 10) }
          let st5b := processChars e st5a denominator
          { st5b with hOffset := currentHOffset + denominatorWidth }
        else st5
      calcuateLineParams e none
        { st6 with ctx := { st6.ctx with
            fontSizeScaleFactor := currentFontSizeScaleFactor } }
    else
      let st5 := { st4 with
        hOffset := currentHOffset + numeratorOffset
        vOffset := currentVOffset + st4.ctx.fontSize * (3 / 10) }
      let st6 := processChars e st5 numerator
      let st7 := { st6 with
        hOffset := currentHOffset + denominatorOffset
        vOffset := currentVOffset - st6.ctx.fontSize * (6 / 10) }
      let st8 := processChars e st7 denominator
      let st9 :=
        if divider = "/" ∨ divider = "#" then
          { st8 with lineSegs := st8.lineSegs ++
              [Seg.mk st8.lineCount
                currentHOffset (currentVOffset - st8.ctx.fontSize * (8 / 10))
                (currentHOffset + fractionWidth)
                (currentVOffset - st8.ctx.fontSize * (8 / 10))] }
        else st8
      { st9 with hOffset := currentHOffset + fractionWidth }
  { stM with
    vOffset := currentVOffset
    ctx := { stM.ctx with wordSpace := currentWordSpace } }

/-- The `PROPERTIES_CHANGED` arm of `processText`: an undefined command is
a group close (pop the most recent context if any, clamped to a no-op on
an empty stack); otherwise a clone of the current context is pushed for
every command at positive brace depth, and the command is applied. -/
def processPropertiesChanged (e : Env) (st : ProcState) (item : ChangedProperties) :
    ProcState :=
  match item.command with
  | none =>
    match st.contextStack with
    | c :: rest => { st with ctx := c, contextStack := rest }
    | [] => st
  | some _ =>
    let st1 :=
      if 0 < item.depth then
        { st with contextStack := st.ctx.clone :: st.contextStack }
      else st
    processFormat e st1 item

/-- Processing a list of `PROPERTIES_CHANGED` tokens in order. -/
def processPropsList (e : Env) (st : ProcState) (items : List ChangedProperties) :
    ProcState :=
  items.foldl (processPropertiesChanged e) st

/-- A run geometry as seen by `processAlignment`: the x-extent
(`boundingBox.min.x`, `boundingBox.max.x`) of one collected buffer
geometry of the completed line. -/
abbrev Run := Rat × Rat

/-- The `min.x` of the union bounding box the alignment pass folds up. -/
def bboxMinX (r : Run) (rest : List Run) : Rat :=
  rest.foldl (fun m q => min m q.1) r.1

/-- The `max.x` of the union bounding box the alignment pass folds up. -/
def bboxMaxX (r : Run) (rest : List Run) : Rat :=
  rest.foldl (fun m q => max m q.2) r.2

/-- The distributed-mode gap loop `for (let k = 1; ...) translate(gap * k)`
of `processAlignment`: run `k` is shifted right by `gap * k` (the source
loop starts at `k = 1`; run 0 receives the zero shift). -/
def shiftRuns (gap : Rat) : Nat → List Run → List Run
  | _, [] => []
  | k, r :: rest => (r.1 + gap * k, r.2 + gap * k) :: shiftRuns gap (k + 1) rest

/-- Shift every run by the same amount (a `translate` on each geometry). -/
def shiftAll (d : Rat) (runs : List Run) : List Run :=
  runs.map (fun r => (r.1 + d, r.2 + d))

/-- `processAlignment`, `MTextParagraphAlignment.DISTRIBUTED` arm, on the
x-extents of the collected geometries of one line: when more than one
geometry is present insert `gap = (maxLineWidth - size.x) / (n - 1)`
between successive geometries, then shift every geometry to the left
margin.  `usable` is `maxLineWidth` and `leftMargin` is
`_currentLeftMargin` of the processor. -/
def processAlignmentDistributed (usable leftMargin : Rat) (runs : List Run) :
    List Run :=
  match runs with
  | [] => []
  | r :: rest =>
    let minX := bboxMinX r rest
    let maxX := bboxMaxX r rest
    let sizeX := maxX - minX
    let runs1 :=
      if 1 < (r :: rest).length then
        let gap := (usable - sizeX) / (((r :: rest).length : Rat) - 1)
        shiftRuns gap 0 (r :: rest)
      else r :: rest
    shiftAll (leftMargin - minX) runs1

/-- The width of a run. -/
def runWidth (r : Run) : Rat := r.2 - r.1

/-- Sum of the widths of a list of runs. -/
def sumWidths (runs : List Run) : Rat :=
  (runs.map runWidth).sum

/-- Sum of the gaps between successive runs (left edge of the next minus
right edge of the previous). -/
def sumGaps : List Run → Rat
  | [] => 0
  | [_] => 0
  | r :: s :: rest => (s.1 - r.2) + sumGaps (s :: rest)

/-- Modelled from the spec: the glyph fallback chain of §4.2 word for
word — primary font first, then the configured big font, then an unscoped
search across all loaded fonts, then the not-found placeholder, each level
attempted only if the previous returns nothing. -/
def specGlyphFallback (e : Env) (st : ProcState) (c : Char) : Option TextShape :=
  match e.fm.getCharShape c st.ctx.font st.ctx.fontSize with
  | some s => some s
  | none =>
    match (if e.style.bigFont ≠ "" then
        e.fm.getCharShape c e.style.bigFont st.ctx.fontSize
      else none) with
    | some s => some s
    | none =>
      match e.fm.getCharShape c "" st.ctx.fontSize with
      | some s => some s
      | none => e.fm.getNotFoundTextShape st.ctx.fontSize

/-- The glyph lookup chain of the processor's `getCharShape` as a pure
function of the formatting context (the processor state enters the chain
only through `ctx.font` and `ctx.fontSize`). -/
def charShapeOf (e : Env) (ctx : Context) (c : Char) : Option TextShape :=
  let size := ctx.fontSize
  let shape0 := e.fm.getCharShape c ctx.font size
  let shape1 :=
    if e.style.bigFont ≠ "" ∧ shape0 = none then
      e.fm.getCharShape c e.style.bigFont size
    else shape0
  let shape2 := match shape1 with
    | none => e.fm.getCharShape c "" size
    | some s => some s
  match shape2 with
  | none => e.fm.getNotFoundTextShape size
  | some s => some s

/-- The cursor advance for one looked-up character: the shape's advance
(ignoring the word space in distributed mode), or the blank width when the
lookup failed (`processChar` falls back to `processBlank`). -/
def advWith (ha : MTextParagraphAlignment) (ctx : Context) :
    Option TextShape → Rat
  | some shape =>
    if ha = MTextParagraphAlignment.distributed then
      shape.width * ctx.widthFactor
    else
      shape.width * ctx.wordSpace * ctx.widthFactor
  | none => ctx.blankWidth

/-- The cursor advance `processChar` produces for a character. -/
def charAdvance (e : Env) (ha : MTextParagraphAlignment) (ctx : Context)
    (c : Char) : Rat :=
  advWith ha ctx (charShapeOf e ctx c)

/-- Total advance of a character list. -/
def sumAdv (e : Env) (ha : MTextParagraphAlignment) (ctx : Context)
    (cs : List Char) : Rat :=
  (cs.map (charAdvance e ha ctx)).sum

/-- The width one character contributes in the stack-measuring loops
(unresolved characters contribute nothing there). -/
def widthOf (e : Env) (ctx : Context) (c : Char) : Rat :=
  match charShapeOf e ctx c with
  | some shape => shape.width * ctx.widthFactor
  | none => 0

/-- The measured width of a string in `processStack`. -/
def stringWidth (e : Env) (ctx : Context) (cs : List Char) : Rat :=
  (cs.map (widthOf e ctx)).sum

/-- The y-translation `processChar` applies to a glyph. -/
def glyphY (flow : MTextFlowDirection) (vOffset fontSize : Rat) : Rat :=
  if flow = MTextFlowDirection.bottomToTop then vOffset
  else vOffset - fontSize

/-- The glyph records a run of characters produces when no line wrap
intervenes, starting at cursor position `x`. -/
def runGlyphs (e : Env) (ha : MTextParagraphAlignment) (ctx : Context)
    (line : Nat) (y : Rat) : Rat → List Char → List Glyph
  | _, [] => []
  | x, c :: cs =>
    match charShapeOf e ctx c with
    | some shape =>
      Glyph.mk line x y (shape.width * ctx.widthFactor) ::
        runGlyphs e ha ctx line y (x + advWith ha ctx (some shape)) cs
    | none => runGlyphs e ha ctx line y (x + ctx.blankWidth) cs

/-- `x` does not exceed an optional width limit. -/
def fitsLimit : Option Rat → Rat → Prop
  | none, _ => True
  | some l, x => x ≤ l

/-- One glyph lookup performed at a chosen effective font size (the size
the formatting state prescribes at that moment): the state effect of
`getCharShape` on the line's maximum font size. -/
def lookupAt (e : Env) (st : ProcState) (sz : Rat) (c : Char) : ProcState :=
  (getCharShape e { st with ctx := { st.ctx with fontSize := sz } } c).2

/-- A sequence of glyph lookups at given effective sizes. -/
def lookupSeq (e : Env) (st : ProcState) (ps : List (Rat × Char)) : ProcState :=
  ps.foldl (fun s p => lookupAt e s p.1 p.2) st

/-- Token sequences consisting of properly nested formatting-group opens
(a command token at positive brace depth, which pushes a clone of the
active context) and closes (a token with an undefined command, which
pops), every open matched by its close. -/
inductive Balanced : List ChangedProperties → Prop where
  | nil : Balanced []
  | wrap (item citem : ChangedProperties) (inner rest : List ChangedProperties)
      (hopen : item.command ≠ none) (hdepth : 0 < item.depth)
      (hclose : citem.command = none)
      (hinner : Balanced inner) (hrest : Balanced rest) :
      Balanced (item :: (inner ++ citem :: rest))

/-! ## Concrete fixtures for witnesses and counterexamples -/

/-- A font manager with a single loaded font `"simplex"` in which every
character has advance width 6: lookups succeed only for that font name. -/
def testFM : FontManager where
  getCharShape := fun _ font _ => if font = "simplex" then some ⟨6⟩ else none
  getFontScaleFactor := fun _ => 1
  getNotFoundTextShape := fun _ => none
  getFontType := fun _ => FontType.shx
  findAndReplaceFont := fun s => s

/-- A font manager in which character widths differ per character
(width 4 for `'1'`, width 6 otherwise), for the stacked-fraction
witnesses. -/
def fracFM : FontManager where
  getCharShape := fun ch font _ =>
    if font = "simplex" then (if ch = '1' then some ⟨4⟩ else some ⟨6⟩) else none
  getFontScaleFactor := fun _ => 1
  getNotFoundTextShape := fun _ => none
  getFontType := fun _ => FontType.shx
  findAndReplaceFont := fun s => s

/-- Options with a usable line width of 10. -/
def testOptions : MTextFormatOptions where
  fontSize := 2
  widthFactor := 1
  lineSpaceFactor := 1
  horizontalAlignment := MTextParagraphAlignment.left
  maxWidth := 10
  flowDirection := MTextFlowDirection.topToBottom
  byBlockColor := 111
  byLayerColor := 222
  removeFontExtension := false

/-- An environment with the single-font manager and a width limit of 10. -/
def testEnv : Env where
  style := ⟨"simplex", "", 1, 0⟩
  fm := testFM
  options := testOptions
  getColorByIndex := fun i => i * 3

/-- An environment with no width limit (`maxWidth = 0`, which the source
turns into `Infinity`) and per-character widths. -/
def fracEnv : Env where
  style := ⟨"simplex", "", 1, 0⟩
  fm := fracFM
  options := { testOptions with maxWidth := 0 }
  getColorByIndex := fun i => i * 3

/-- The base formatting context of the fixtures. -/
def ctx0 : Context where
  font := "simplex"
  fontScaleFactor := 1
  fontSize := 2
  fontSizeScaleFactor := 1
  color := 222
  underline := false
  overline := false
  strikeThrough := false
  obliqueAngle := 0
  italic := false
  bold := false
  widthFactor := 1
  wordSpace := 1
  blankWidth := 1

/-- The initial processor state of the fixtures. -/
def st0 : ProcState where
  totalHeight := 0
  hOffset := 0
  vOffset := 0
  lineCount := 1
  contextStack := []
  ctx := ctx0
  maxFontSize := 0
  horizontalAlignment := MTextParagraphAlignment.left
  indent := 0
  leftMargin := 0
  rightMargin := 0
  glyphs := []
  lineSegs := []

/-- A `\C0;` color command token (ACI index 0, i.e. "by block"). -/
def aciZeroItem : ChangedProperties :=
  ⟨some "C", 1, { Changes.empty with aci := some 0 }⟩

/-- The state effect of `processChar` when no wrap fires: advance the
cursor, record the glyph, track the maximum font size. -/
def charStep (e : Env) (st : ProcState) (c : Char) : ProcState :=
  { st with
    hOffset := st.hOffset + charAdvance e st.horizontalAlignment st.ctx c
    maxFontSize := max st.maxFontSize st.ctx.fontSize
    glyphs := st.glyphs ++
      runGlyphs e st.horizontalAlignment st.ctx st.lineCount
        (glyphY e.options.flowDirection st.vOffset st.ctx.fontSize)
        st.hOffset [c] }

/-- The decoration segments `processChar` emits for one glyph. -/
def decoSegs (ctx : Context) (line : Nat)
    (charX charY charWidth charHeight : Rat) : List Seg :=
  (if ctx.underline then
    [Seg.mk line charX (charY - charHeight * (5 / 100))
      (charX + charWidth) (charY - charHeight * (5 / 100))]
   else []) ++
  (if ctx.overline then
    [Seg.mk line charX (charY + charHeight + charHeight * (5 / 100))
      (charX + charWidth) (charY + charHeight + charHeight * (5 / 100))]
   else []) ++
  (if ctx.strikeThrough then
    [Seg.mk line charX (charY + charHeight / 2 - charHeight * (2 / 10))
      (charX + charWidth) (charY + charHeight / 2 - charHeight * (2 / 10))]
   else [])

/-- The state effect of `processChar` when the wrap check does not fire:
either a blank advance (failed lookup) or glyph emission with advance,
decorations, and maximum-font-size tracking. -/
def charStepG (e : Env) (st : ProcState) (c : Char) : ProcState :=
  match charShapeOf e st.ctx c with
  | none => { st with
      maxFontSize := max st.maxFontSize st.ctx.fontSize
      hOffset := st.hOffset + st.ctx.blankWidth }
  | some shape => { st with
      maxFontSize := max st.maxFontSize st.ctx.fontSize
      hOffset := st.hOffset + advWith st.horizontalAlignment st.ctx (some shape)
      glyphs := st.glyphs ++
        [Glyph.mk st.lineCount st.hOffset
          (glyphY e.options.flowDirection st.vOffset st.ctx.fontSize)
          (shape.width * st.ctx.widthFactor)]
      lineSegs := st.lineSegs ++
        decoSegs st.ctx st.lineCount st.hOffset
          (glyphY e.options.flowDirection st.vOffset st.ctx.fontSize)
          (shape.width * st.ctx.widthFactor) st.ctx.fontSize }

/-- The x-extent of the last run of a non-empty run list. -/
def lastX : Run → List Run → Run
  | r, [] => r
  | _, s :: rest => lastX s rest

/-! ## Frame lemmas -/

lemma Context.clone_eq (c : Context) : c.clone = c := rfl

lemma getCharShape_snd (e : Env) (st : ProcState) (c : Char) :
    (getCharShape e st c).2 = { st with maxFontSize := max st.maxFontSize st.ctx.fontSize } := by
  unfold getCharShape
  by_cases h : st.maxFontSize < st.ctx.fontSize
  · simp [h, max_eq_right h.le]
  · simp [h, max_eq_left (not_lt.mp h)]

lemma getCharShape_fst (e : Env) (st : ProcState) (c : Char) :
    (getCharShape e st c).1 = specGlyphFallback e st c := by
  unfold getCharShape specGlyphFallback
  rcases h0 : e.fm.getCharShape c st.ctx.font st.ctx.fontSize with _ | s0
  · by_cases hb : e.style.bigFont = ""
    · simp only [h0, hb, ne_eq, not_true, if_false, false_and]
      rcases h2 : e.fm.getCharShape c "" st.ctx.fontSize with _ | s2 <;> simp [h2]
    · simp only [h0, hb, ne_eq, not_false_iff, true_and, if_true]
      rcases h1 : e.fm.getCharShape c e.style.bigFont st.ctx.fontSize with _ | s1 <;>
        simp only [h1] <;>
        rcases h2 : e.fm.getCharShape c "" st.ctx.fontSize with _ | s2 <;> simp [h2]
  · simp [h0]

lemma processFormatCmd_stack (e : Env) (st : ProcState) (chs : Changes) (cmd : String) :
    (processFormatCmd e st chs cmd).contextStack = st.contextStack := by
  unfold processFormatCmd
  by_cases h1 : cmd = "f" ∨ cmd = "F"
  · rw [if_pos h1]
    rcases chs.fontFace with _ | ff <;> rfl
  rw [if_neg h1]
  by_cases h2 : cmd = "c" ∨ cmd = "C"
  · rw [if_pos h2]
    rfl
  rw [if_neg h2]
  by_cases h3 : cmd = "W"
  · rw [if_pos h3]
    rcases chs.widthFactor with _ | wf
    · rfl
    · obtain ⟨rel, val⟩ := wf
      cases rel <;> rfl
  rw [if_neg h3]
  by_cases h4 : cmd = "H"
  · rw [if_pos h4]
    rcases chs.capHeight with _ | chh
    · rfl
    · obtain ⟨rel, val⟩ := chh
      cases rel <;> rfl
  rw [if_neg h4]
  by_cases h5 : cmd = "T"
  · rw [if_pos h5]
    rcases chs.charTrackingFactor with _ | tr
    · rfl
    · obtain ⟨rel, val⟩ := tr
      cases rel <;> rfl
  rw [if_neg h5]
  by_cases h6 : cmd = "p"
  · rw [if_pos h6]
    rcases chs.paragraph with _ | p <;> rfl
  rw [if_neg h6]
  by_cases h7 : cmd = "L"
  · rw [if_pos h7]
  rw [if_neg h7]
  by_cases h8 : cmd = "l"
  · rw [if_pos h8]
  rw [if_neg h8]
  by_cases h9 : cmd = "O"
  · rw [if_pos h9]
  rw [if_neg h9]
  by_cases h10 : cmd = "o"
  · rw [if_pos h10]
  rw [if_neg h10]
  by_cases h11 : cmd = "K"
  · rw [if_pos h11]
  rw [if_neg h11]
  by_cases h12 : cmd = "k"
  · rw [if_pos h12]
  rw [if_neg h12]
  by_cases h13 : cmd = "Q"
  · rw [if_pos h13]
    rcases chs.oblique with _ | v <;> rfl
  rw [if_neg h13]

lemma processFormat_stack (e : Env) (st : ProcState) (item : ChangedProperties) :
    (processFormat e st item).contextStack = st.contextStack := by
  obtain ⟨cmdOpt, depth, chs⟩ := item
  rcases cmdOpt with _ | cmd
  · rfl
  · exact processFormatCmd_stack e st chs cmd

lemma getCharShape_eq (e : Env) (st : ProcState) (c : Char) :
    getCharShape e st c =
      (charShapeOf e st.ctx c,
       { st with maxFontSize := max st.maxFontSize st.ctx.fontSize }) := by
  have h1 : (getCharShape e st c).1 = charShapeOf e st.ctx c := rfl
  have h2 := getCharShape_snd e st c
  calc getCharShape e st c = ((getCharShape e st c).1, (getCharShape e st c).2) := rfl
    _ = _ := by rw [h1, h2]

lemma measureWord_fst (e : Env) (word : List Char) : ∀ st : ProcState,
    (measureWord e st word).1 = sumAdv e st.horizontalAlignment st.ctx word := by
  induction word with
  | nil => intro st; simp [measureWord, sumAdv]
  | cons c cs ih =>
    intro st
    rw [measureWord, getCharShape_eq]
    rcases h : charShapeOf e st.ctx c with _ | shape <;>
      simp [h, ih, sumAdv, charAdvance, advWith, shapeAdvance]

lemma measureWord_snd (e : Env) (word : List Char) : ∀ st : ProcState,
    (measureWord e st word).2 = { st with maxFontSize :=
      (if word = [] then st.maxFontSize
       else max st.maxFontSize st.ctx.fontSize) } := by
  induction word with
  | nil => intro st; simp [measureWord]
  | cons c cs ih =>
    intro st
    rw [measureWord, getCharShape_eq]
    rcases h : charShapeOf e st.ctx c with _ | shape <;>
      rcases cs with _ | ⟨c2, cs2⟩ <;>
      simp [h, ih, max_assoc]

lemma measureString_fst (e : Env) (s : List Char) : ∀ st : ProcState,
    (measureString e st s).1 = stringWidth e st.ctx s := by
  induction s with
  | nil => intro st; simp [measureString, stringWidth]
  | cons c cs ih =>
    intro st
    rw [measureString, getCharShape_eq]
    rcases h : charShapeOf e st.ctx c with _ | shape <;>
      simp [h, ih, stringWidth, widthOf]

lemma measureString_snd (e : Env) (s : List Char) : ∀ st : ProcState,
    (measureString e st s).2 = { st with maxFontSize :=
      (if s = [] then st.maxFontSize
       else max st.maxFontSize st.ctx.fontSize) } := by
  induction s with
  | nil => intro st; simp [measureString]
  | cons c cs ih =>
    intro st
    rw [measureString, getCharShape_eq]
    rcases h : charShapeOf e st.ctx c with _ | shape <;>
      rcases cs with _ | ⟨c2, cs2⟩ <;>
      simp [h, ih, max_assoc]

lemma processChar_noLimit (e : Env) (st : ProcState) (c : Char)
    (hlim : effLimit (maxLineWidth e st) = none)
    (hu : st.ctx.underline = false) (ho : st.ctx.overline = false)
    (hs : st.ctx.strikeThrough = false) :
    processChar e st c = charStep e st c := by
  unfold processChar charStep
  rw [getCharShape_eq]
  rcases h : charShapeOf e st.ctx c with _ | shape
  · simp [processBlank, runGlyphs, h, charAdvance, advWith]

  · have hex : exceeds (effLimit (maxLineWidth e
        { st with maxFontSize := max st.maxFontSize st.ctx.fontSize })) st.hOffset = false := by
      have : maxLineWidth e
          { st with maxFontSize := max st.maxFontSize st.ctx.fontSize } =
          maxLineWidth e st := rfl
      rw [this, hlim]
      rfl
    simp only [hex, if_false, Bool.false_eq_true]
    simp [runGlyphs, h, charAdvance, advWith, shapeAdvance, glyphY, hu, ho, hs]

lemma processChars_noLimit (e : Env) (cs : List Char) : ∀ st : ProcState,
    effLimit (maxLineWidth e st) = none →
    st.ctx.underline = false → st.ctx.overline = false →
    st.ctx.strikeThrough = false →
    processChars e st cs = { st with
      hOffset := st.hOffset + sumAdv e st.horizontalAlignment st.ctx cs
      maxFontSize := (if cs = [] then st.maxFontSize
        else max st.maxFontSize st.ctx.fontSize)
      glyphs := st.glyphs ++
        runGlyphs e st.horizontalAlignment st.ctx st.lineCount
          (glyphY e.options.flowDirection st.vOffset st.ctx.fontSize)
          st.hOffset cs } := by
  induction cs with
  | nil =>
    intro st _ _ _ _
    simp [processChars, runGlyphs, sumAdv]
  | cons c cs2 ih =>
    intro st hlim hu ho hs
    have hstep := processChar_noLimit e st c hlim hu ho hs
    have h1 : processChars e st (c :: cs2) =
        processChars e (processChar e st c) cs2 := rfl
    have hlim1 : effLimit (maxLineWidth e (charStep e st c)) = none := hlim
    have hu1 : (charStep e st c).ctx.underline = false := hu
    have ho1 : (charStep e st c).ctx.overline = false := ho
    have hs1 : (charStep e st c).ctx.strikeThrough = false := hs
    rw [h1, hstep, ih (charStep e st c) hlim1 hu1 ho1 hs1]
    rcases h : charShapeOf e st.ctx c with _ | shape <;>
      rcases cs2 with _ | ⟨c2, cs3⟩ <;>
      simp [charStep, h, runGlyphs, sumAdv, charAdvance, advWith, max_assoc, add_assoc]

lemma sumAdv_cons (e : Env) (ha : MTextParagraphAlignment) (ctx : Context)
    (c : Char) (cs : List Char) :
    sumAdv e ha ctx (c :: cs) = charAdvance e ha ctx c + sumAdv e ha ctx cs := by
  simp [sumAdv]

lemma sumAdv_nonneg (e : Env) (ha : MTextParagraphAlignment) (ctx : Context)
    (cs : List Char) (h : ∀ c ∈ cs, 0 ≤ charAdvance e ha ctx c) :
    0 ≤ sumAdv e ha ctx cs := by
  refine List.sum_nonneg ?_
  intro x hx
  obtain ⟨c, hc, rfl⟩ := List.mem_map.mp hx
  exact h c hc

lemma processChar_nowrap (e : Env) (st : ProcState) (c : Char)
    (hex : exceeds (effLimit (maxLineWidth e st)) st.hOffset = false) :
    processChar e st c = charStepG e st c := by
  unfold processChar charStepG
  rw [getCharShape_eq]
  rcases h : charShapeOf e st.ctx c with _ | shape
  · simp [processBlank, h]
  · have hex1 : exceeds (effLimit (maxLineWidth e
        { st with maxFontSize := max st.maxFontSize st.ctx.fontSize })) st.hOffset
        = false := hex
    simp only [hex1, Bool.false_eq_true, if_false]
    simp [h, decoSegs, shapeAdvance, advWith, glyphY]

lemma charStepG_proj (e : Env) (st : ProcState) (c : Char) :
    (charStepG e st c).hOffset
      = st.hOffset + charAdvance e st.horizontalAlignment st.ctx c ∧
    (charStepG e st c).lineCount = st.lineCount ∧
    (charStepG e st c).ctx = st.ctx ∧
    (charStepG e st c).horizontalAlignment = st.horizontalAlignment ∧
    (charStepG e st c).leftMargin = st.leftMargin ∧
    (charStepG e st c).rightMargin = st.rightMargin ∧
    ∃ gl, (charStepG e st c).glyphs = st.glyphs ++ gl ∧
      ∀ g ∈ gl, g.line = st.lineCount := by
  unfold charStepG
  rcases h : charShapeOf e st.ctx c with _ | shape
  · exact ⟨by simp [charAdvance, advWith, h], rfl, rfl, rfl, rfl, rfl,
      [], by simp, by simp⟩
  · exact ⟨by simp [charAdvance, advWith, h], rfl, rfl, rfl, rfl, rfl,
      [Glyph.mk st.lineCount st.hOffset
        (glyphY e.options.flowDirection st.vOffset st.ctx.fontSize)
        (shape.width * st.ctx.widthFactor)], by simp, by simp⟩

lemma processChars_sameLine (e : Env) (cs : List Char) : ∀ st : ProcState,
    fitsLimit (effLimit (maxLineWidth e st))
      (st.hOffset + sumAdv e st.horizontalAlignment st.ctx cs) →
    (∀ c ∈ cs, 0 ≤ charAdvance e st.horizontalAlignment st.ctx c) →
    ∃ gl, (processChars e st cs).glyphs = st.glyphs ++ gl ∧
      ∀ g ∈ gl, g.line = st.lineCount := by
  induction cs with
  | nil =>
    intro st _ _
    exact ⟨[], by simp [processChars], by simp⟩
  | cons c cs2 ih =>
    intro st hfit hadv
    have hadv0 : 0 ≤ charAdvance e st.horizontalAlignment st.ctx c :=
      hadv c (by simp)
    have hadvrest : ∀ x ∈ cs2, 0 ≤ charAdvance e st.horizontalAlignment st.ctx x :=
      fun x hx => hadv x (by simp [hx])
    have hsum2 : 0 ≤ sumAdv e st.horizontalAlignment st.ctx cs2 :=
      sumAdv_nonneg e _ _ _ hadvrest
    have hex : exceeds (effLimit (maxLineWidth e st)) st.hOffset = false := by
      rcases hL : effLimit (maxLineWidth e st) with _ | L
      · rfl
      · have hf := hfit
        rw [hL] at hf
        rw [sumAdv_cons] at hf
        have hle : st.hOffset ≤ L := by
          have : st.hOffset + (charAdvance e st.horizontalAlignment st.ctx c +
              sumAdv e st.horizontalAlignment st.ctx cs2) ≤ L := hf
          linarith
        simp [exceeds, hle, not_lt]
    have hstep := processChar_nowrap e st c hex
    obtain ⟨hh, hlc, hctx, hha, hlm, hrm, gl1, hgl1, hln1⟩ := charStepG_proj e st c
    have hml : maxLineWidth e (charStepG e st c) = maxLineWidth e st := by
      unfold maxLineWidth
      rw [hlm, hrm]
    have hfit2 : fitsLimit (effLimit (maxLineWidth e (charStepG e st c)))
        ((charStepG e st c).hOffset +
          sumAdv e (charStepG e st c).horizontalAlignment (charStepG e st c).ctx cs2) := by
      rw [hml, hh, hctx, hha]
      rw [sumAdv_cons] at hfit
      rcases hL : effLimit (maxLineWidth e st) with _ | L
      · exact trivial
      · rw [hL] at hfit
        have hf : st.hOffset + (charAdvance e st.horizontalAlignment st.ctx c +
            sumAdv e st.horizontalAlignment st.ctx cs2) ≤ L := hfit
        show st.hOffset + charAdvance e st.horizontalAlignment st.ctx c +
          sumAdv e st.horizontalAlignment st.ctx cs2 ≤ L
        linarith
    have hadv2 : ∀ x ∈ cs2,
        0 ≤ charAdvance e (charStepG e st c).horizontalAlignment (charStepG e st c).ctx x := by
      rw [hctx, hha]
      exact hadvrest
    obtain ⟨gl2, hgl2, hln2⟩ := ih (charStepG e st c) hfit2 hadv2
    refine ⟨gl1 ++ gl2, ?_, ?_⟩
    · have h1 : processChars e st (c :: cs2) =
          processChars e (processChar e st c) cs2 := rfl
      rw [h1, hstep, hgl2, hgl1, List.append_assoc]
    · intro g hg
      rcases List.mem_append.mp hg with hg1 | hg2
      · exact hln1 g hg1
      · rw [← hlc]
        exact hln2 g hg2

lemma balanced_restore (e : Env) {ts : List ChangedProperties} (hb : Balanced ts) :
    ∀ st : ProcState, (processPropsList e st ts).ctx = st.ctx ∧
      (processPropsList e st ts).contextStack = st.contextStack := by
  induction hb with
  | nil => intro st; exact ⟨rfl, rfl⟩
  | wrap item citem inner rest hopen hdepth hclose hinner hrest ihinner ihrest =>
    intro st
    obtain ⟨cmd, hc⟩ := Option.ne_none_iff_exists'.mp hopen
    have hs1stack : (processPropertiesChanged e st item).contextStack
        = st.ctx :: st.contextStack := by
      unfold processPropertiesChanged
      rw [hc]
      simp only [if_pos hdepth]
      rw [processFormat_stack]
      rfl
    have hkey : processPropsList e st (item :: (inner ++ citem :: rest))
        = processPropsList e
            (processPropertiesChanged e
              (processPropsList e (processPropertiesChanged e st item) inner)
              citem)
            rest := by
      unfold processPropsList
      rw [List.foldl_cons, List.foldl_append, List.foldl_cons]
    obtain ⟨ictx, istack⟩ := ihinner (processPropertiesChanged e st item)
    have hs2stack :
        (processPropsList e (processPropertiesChanged e st item) inner).contextStack
        = st.ctx :: st.contextStack := istack.trans hs1stack
    have hs3gen : ∀ s2 : ProcState, s2.contextStack = st.ctx :: st.contextStack →
        processPropertiesChanged e s2 citem
          = { s2 with ctx := st.ctx, contextStack := st.contextStack } := by
      intro s2 h2
      simp only [processPropertiesChanged, hclose, h2]
    have hs3 := hs3gen _ hs2stack
    obtain ⟨rctx, rstack⟩ := ihrest (processPropertiesChanged e
      (processPropsList e (processPropertiesChanged e st item) inner) citem)
    rw [hkey]
    constructor
    · rw [rctx, hs3]
    · rw [rstack, hs3]

lemma lookupAt_maxFontSize (e : Env) (st : ProcState) (sz : Rat) (c : Char) :
    (lookupAt e st sz c).maxFontSize = max st.maxFontSize sz := by
  unfold lookupAt
  rw [getCharShape_snd]

lemma lookupSeq_maxFontSize (e : Env) (ps : List (Rat × Char)) :
    ∀ st : ProcState,
    (lookupSeq e st ps).maxFontSize = (ps.map Prod.fst).foldl max st.maxFontSize := by
  induction ps with
  | nil => intro st; rfl
  | cons p ps2 ih =>
    intro st
    have h1 : lookupSeq e st (p :: ps2) = lookupSeq e (lookupAt e st p.1 p.2) ps2 := rfl
    rw [h1, ih, List.map_cons, List.foldl_cons, lookupAt_maxFontSize]

lemma le_foldl_max (l : List Rat) : ∀ a : Rat, a ≤ l.foldl max a := by
  induction l with
  | nil => intro a; simp
  | cons x xs ih => intro a; exact le_trans (le_max_left a x) (ih _)

lemma mem_le_foldl_max (l : List Rat) : ∀ (a : Rat), ∀ x ∈ l, x ≤ l.foldl max a := by
  induction l with
  | nil => simp
  | cons y ys ih =>
    intro a x hx
    rcases List.mem_cons.mp hx with rfl | hmem
    · exact le_trans (le_max_right a x) (le_foldl_max ys _)
    · exact ih (max a y) x hmem

lemma foldl_max_attained (l : List Rat) : ∀ a : Rat,
    l.foldl max a = a ∨ ∃ x ∈ l, l.foldl max a = x := by
  induction l with
  | nil => intro a; left; rfl
  | cons y ys ih =>
    intro a
    have hfold : (y :: ys).foldl max a = ys.foldl max (max a y) := rfl
    rcases ih (max a y) with h | ⟨x, hx, hfx⟩
    · rcases le_total a y with hay | hya
      · right
        exact ⟨y, List.mem_cons_self y ys, by rw [hfold, h, max_eq_right hay]⟩
      · left
        rw [hfold, h, max_eq_left hya]
    · right
      exact ⟨x, List.mem_cons_of_mem y hx, by rw [hfold, hfx]⟩

lemma telescope (rest : List Run) : ∀ r : Run,
    sumGaps (r :: rest) + sumWidths (r :: rest) = (lastX r rest).2 - r.1 := by
  induction rest with
  | nil => intro r; simp [sumGaps, sumWidths, runWidth, lastX]
  | cons s rest2 ih =>
    intro r
    have hg : sumGaps (r :: s :: rest2) = (s.1 - r.2) + sumGaps (s :: rest2) := rfl
    have hw : sumWidths (r :: s :: rest2) = (r.2 - r.1) + sumWidths (s :: rest2) := by
      simp [sumWidths, runWidth]
    have hl : lastX r (s :: rest2) = lastX s rest2 := rfl
    have := ih s
    rw [hg, hw, hl]
    linarith

lemma lastX_map (f : Run → Run) (rest : List Run) : ∀ r : Run,
    lastX (f r) (rest.map f) = f (lastX r rest) := by
  induction rest with
  | nil => intro r; rfl
  | cons s rest2 ih => intro r; exact ih s

lemma lastX_shiftRuns (gap : Rat) (rest : List Run) : ∀ (k : Nat) (r : Run),
    lastX (r.1 + gap * k, r.2 + gap * k) (shiftRuns gap (k + 1) rest)
      = ((lastX r rest).1 + gap * (k + rest.length),
         (lastX r rest).2 + gap * (k + rest.length)) := by
  induction rest with
  | nil =>
    intro k r
    simp [shiftRuns, lastX]
  | cons s rest2 ih =>
    intro k r
    have h2 : lastX (r.1 + gap * (k : Rat), r.2 + gap * (k : Rat))
        (shiftRuns gap (k + 1) (s :: rest2))
        = lastX (s.1 + gap * ((k + 1 : Nat) : Rat), s.2 + gap * ((k + 1 : Nat) : Rat))
            (shiftRuns gap ((k + 1) + 1) rest2) := rfl
    rw [h2, ih (k + 1) s]
    have hl : lastX r (s :: rest2) = lastX s rest2 := rfl
    rw [hl]
    simp only [Prod.mk.injEq, List.length_cons]
    constructor <;> · push_cast; ring

lemma foldl_min_const (l : List Run) : ∀ a : Rat, (∀ q ∈ l, a ≤ q.1) →
    l.foldl (fun m q => min m q.1) a = a := by
  induction l with
  | nil => intro a _; rfl
  | cons q l2 ih =>
    intro a h
    have h1 : (q :: l2).foldl (fun m q => min m q.1) a
        = l2.foldl (fun m q => min m q.1) (min a q.1) := rfl
    rw [h1, min_eq_left (h q (List.mem_cons_self q l2))]
    exact ih a (fun p hp => h p (List.mem_cons_of_mem q hp))

lemma chain_firsts (rest : List Run) : ∀ r : Run,
    List.Chain' (fun a b : Run => a.2 ≤ b.1) (r :: rest) →
    (∀ q ∈ r :: rest, q.1 ≤ q.2) →
    ∀ q ∈ rest, r.1 ≤ q.1 := by
  induction rest with
  | nil => intro r _ _ q hq; simp at hq
  | cons s rest2 ih =>
    intro r hch hw q hq
    have hrs : r.2 ≤ s.1 := (List.chain'_cons.mp hch).1
    have hr : r.1 ≤ r.2 := hw r (by simp)
    have hs1 : r.1 ≤ s.1 := le_trans hr hrs
    rcases List.mem_cons.mp hq with rfl | hq2
    · exact hs1
    · have hch2 : List.Chain' (fun a b : Run => a.2 ≤ b.1) (s :: rest2) :=
        (List.chain'_cons.mp hch).2
      have hw2 : ∀ p ∈ s :: rest2, p.1 ≤ p.2 := fun p hp => hw p (by simp [hp])
      exact le_trans hs1 (ih s hch2 hw2 q hq2)

lemma bboxMinX_of_chain (rest : List Run) (r : Run)
    (hch : List.Chain' (fun a b : Run => a.2 ≤ b.1) (r :: rest))
    (hw : ∀ q ∈ r :: rest, q.1 ≤ q.2) :
    bboxMinX r rest = r.1 := by
  unfold bboxMinX
  exact foldl_min_const rest r.1 (chain_firsts rest r hch hw)

lemma bboxMaxX_of_chain (rest : List Run) : ∀ r : Run,
    List.Chain' (fun a b : Run => a.2 ≤ b.1) (r :: rest) →
    (∀ q ∈ r :: rest, q.1 ≤ q.2) →
    bboxMaxX r rest = (lastX r rest).2 := by
  induction rest with
  | nil => intro r _ _; rfl
  | cons s rest2 ih =>
    intro r hch hw
    have hrs : r.2 ≤ s.1 := (List.chain'_cons.mp hch).1
    have hs : s.1 ≤ s.2 := hw s (by simp)
    have h1 : bboxMaxX r (s :: rest2)
        = rest2.foldl (fun m q => max m q.2) (max r.2 s.2) := rfl
    have h2 : max r.2 s.2 = s.2 := max_eq_right (le_trans hrs hs)
    have hch2 : List.Chain' (fun a b : Run => a.2 ≤ b.1) (s :: rest2) :=
      (List.chain'_cons.mp hch).2
    have hw2 : ∀ p ∈ s :: rest2, p.1 ≤ p.2 := fun p hp => hw p (by simp [hp])
    have h3 : bboxMaxX s rest2 = (lastX s rest2).2 := ih s hch2 hw2
    have h4 : lastX r (s :: rest2) = lastX s rest2 := rfl
    rw [h1, h2, h4, ← h3]
    rfl

/-! ## Claim theorems -/

/-- Claim C2: for every sequence of properly nested formatting-group opens
(command tokens at positive depth, each pushing a clone of the active
context) and closes, after all opened groups have closed the active
formatting context — font, color, size scale, width factor, tracking,
decoration flags, oblique angle, italic/bold — equals the context active
at the outermost level before the groups opened, and the stack below is
untouched. -/
theorem claim_C2_stack_restore (e : Env) (st : ProcState)
    (ts : List ChangedProperties) (hb : Balanced ts) :
    (processPropsList e st ts).ctx = st.ctx ∧
    (processPropsList e st ts).contextStack = st.contextStack :=
  balanced_restore e hb st

/-- Witness for claim C2: a group that recolors and rescales, then
closes; the context is restored. -/
theorem claim_C2_witness :
    (processPropsList testEnv st0
      [⟨some "C", 1, { Changes.empty with aci := some 1 }⟩,
       ⟨some "W", 1, { Changes.empty with widthFactor := some ⟨false, 2⟩ }⟩,
       ⟨none, 0, Changes.empty⟩,
       ⟨none, 0, Changes.empty⟩]).ctx = st0.ctx ∧
    (processPropsList testEnv st0
      [⟨some "C", 1, { Changes.empty with aci := some 1 }⟩,
       ⟨some "W", 1, { Changes.empty with widthFactor := some ⟨false, 2⟩ }⟩,
       ⟨none, 0, Changes.empty⟩,
       ⟨none, 0, Changes.empty⟩]).contextStack = st0.contextStack :=
  claim_C2_stack_restore testEnv st0 _
    (Balanced.wrap _ _ [⟨some "W", 1, { Changes.empty with widthFactor := some ⟨false, 2⟩ }⟩,
        ⟨none, 0, Changes.empty⟩] []
      (by simp) (by simp) rfl
      (Balanced.wrap _ _ [] [] (by simp) (by simp) rfl Balanced.nil Balanced.nil)
      Balanced.nil)

/-- Claim C3: a formatting-group close pops the most recently pushed
context and makes it active; on an empty stack the close is a no-op
leaving the state (in particular the base context) unchanged — the
embedding is a total function, so no token sequence can make it throw. -/
theorem claim_C3_close_pop (e : Env) (st : ProcState)
    (item : ChangedProperties) (hclose : item.command = none) :
    (st.contextStack = [] → processPropertiesChanged e st item = st) ∧
    (∀ c rest, st.contextStack = c :: rest →
      (processPropertiesChanged e st item).ctx = c ∧
      (processPropertiesChanged e st item).contextStack = rest) := by
  constructor
  · intro h
    simp [processPropertiesChanged, hclose, h]
  · intro c rest h
    simp [processPropertiesChanged, hclose, h]

/-- Witness for claim C3: a close on an empty stack is a no-op; a close on
a pushed stack restores the pushed context. -/
theorem claim_C3_witness :
    (processPropertiesChanged testEnv st0 ⟨none, 0, Changes.empty⟩ = st0) ∧
    ((processPropertiesChanged testEnv { st0 with contextStack := [ctx0] }
        ⟨none, 0, Changes.empty⟩).ctx = ctx0 ∧
      (processPropertiesChanged testEnv { st0 with contextStack := [ctx0] }
        ⟨none, 0, Changes.empty⟩).contextStack = []) :=
  ⟨(claim_C3_close_pop testEnv st0 ⟨none, 0, Changes.empty⟩ rfl).1 rfl,
   (claim_C3_close_pop testEnv { st0 with contextStack := [ctx0] }
      ⟨none, 0, Changes.empty⟩ rfl).2 ctx0 [] rfl⟩

/-- Claim C4 (code bug): the claim says an ACI index of 0 sets the current
color to the by-block color, and the source contains a branch for exactly
that — but the branch sits inside `if (item.changes.aci)`, and `0` is
falsy in JavaScript, so the branch is unreachable: a `\C0;` command leaves
the color unchanged instead of applying the by-block color. -/
theorem claim_C4_aci_zero_bug :
    (processFormat testEnv st0 aciZeroItem).ctx.color = st0.ctx.color ∧
    st0.ctx.color ≠ testEnv.options.byBlockColor := by
  constructor
  · rfl
  · decide

/-- Claim C5: `startNewLine` resets the tracked per-line maximum font size
to zero; each glyph lookup raises it to the maximum of its previous value
and the effective font size of the lookup; after a run of lookups it is
the running maximum of the requested sizes — an upper bound that is
attained — and the current line height adds it to the line-space term. -/
theorem claim_C5_max_font_size (e : Env) (st : ProcState)
    (ps : List (Rat × Char)) (hpos : ∀ p ∈ ps, 0 ≤ p.1) :
    (startNewLine e st).maxFontSize = 0 ∧
    (∀ (st1 : ProcState) (c : Char),
      (getCharShape e st1 c).2.maxFontSize = max st1.maxFontSize st1.ctx.fontSize) ∧
    (lookupSeq e (startNewLine e st) ps).maxFontSize
      = (ps.map Prod.fst).foldl max 0 ∧
    (∀ p ∈ ps, p.1 ≤ (lookupSeq e (startNewLine e st) ps).maxFontSize) ∧
    (ps = [] ∨ ∃ p ∈ ps,
      (lookupSeq e (startNewLine e st) ps).maxFontSize = p.1) ∧
    (∀ st2 : ProcState, currentLineHeight e st2 =
      e.options.lineSpaceFactor * st2.ctx.fontSize * LINE_SPACING_SCALE_FACTOR
        + st2.maxFontSize) := by
  have h0 : (startNewLine e st).maxFontSize = 0 := rfl
  have hseq : (lookupSeq e (startNewLine e st) ps).maxFontSize
      = (ps.map Prod.fst).foldl max 0 := by
    rw [lookupSeq_maxFontSize, h0]
  refine ⟨h0, ?_, hseq, ?_, ?_, fun st2 => rfl⟩
  · intro st1 c
    rw [getCharShape_snd]
  · intro p hp
    rw [hseq]
    exact mem_le_foldl_max (ps.map Prod.fst) 0 p.1
      (List.mem_map.mpr ⟨p, hp, rfl⟩)
  · rcases ps with _ | ⟨p, ps2⟩
    · left; rfl
    · right
      rcases foldl_max_attained ((p :: ps2).map Prod.fst) 0 with hbase | ⟨x, hx, hfx⟩
      · refine ⟨p, List.mem_cons_self p ps2, ?_⟩
        have hub : p.1 ≤ ((p :: ps2).map Prod.fst).foldl max 0 :=
          mem_le_foldl_max _ 0 p.1 (List.mem_map.mpr ⟨p, List.mem_cons_self p ps2, rfl⟩)
        have hlb : 0 ≤ p.1 := hpos p (List.mem_cons_self p ps2)
        rw [hseq, hbase]
        rw [hbase] at hub
        exact (le_antisymm hub hlb).symm
      · obtain ⟨q, hq, rfl⟩ := List.mem_map.mp hx
        exact ⟨q, hq, by rw [hseq, hfx]⟩

/-- Witness for claim C5: two lookups at sizes 2 and 3 leave the line's
maximum font size at 3. -/
theorem claim_C5_witness :
    (lookupSeq testEnv (startNewLine testEnv st0)
      [((2 : Rat), 'a'), ((3 : Rat), 'b')]).maxFontSize = 3 := by
  have h := claim_C5_max_font_size testEnv st0
    [((2 : Rat), 'a'), ((3 : Rat), 'b')] (by decide)
  rw [h.2.2.1]
  decide

/-- Claim C6: the current line height is the line-space factor times the
current font size times the constant 1.666666, plus the line's maximum
observed font size; and while the layout still has exactly one line the
reported total height is just that maximum font size. -/
theorem claim_C6_line_height (e : Env) (st : ProcState)
    (h1 : st.lineCount = 1) :
    currentLineHeight e st
      = e.options.lineSpaceFactor * st.ctx.fontSize * LINE_SPACING_SCALE_FACTOR
        + st.maxFontSize ∧
    LINE_SPACING_SCALE_FACTOR = 1666666 / 1000000 ∧
    totalHeightGetter e st = st.maxFontSize := by
  refine ⟨rfl, rfl, ?_⟩
  unfold totalHeightGetter
  rw [if_pos h1]

/-- Witness for claim C6 at the base fixture state. -/
theorem claim_C6_witness :
    totalHeightGetter testEnv st0 = st0.maxFontSize :=
  (claim_C6_line_height testEnv st0 rfl).2.2

/-- Claim C9: the processor's glyph lookup equals the specified fallback
chain — current font first, the configured big font only if the primary
returned nothing, the unscoped all-fonts search only after that, the
not-found placeholder last — and even a failed lookup leaves `processChar`
a defined state transition (it degrades to a blank advance), so a missing
glyph never fails the layout pass. -/
theorem claim_C9_fallback_chain (e : Env) (st : ProcState) (c : Char) :
    (getCharShape e st c).1 = specGlyphFallback e st c ∧
    (∀ st1 : ProcState, (getCharShape e st1 c).1 = none →
      processChar e st1 c = processBlank (getCharShape e st1 c).2) := by
  refine ⟨getCharShape_fst e st c, ?_⟩
  intro st1 h
  have hpair : getCharShape e st1 c = (none, (getCharShape e st1 c).2) := by
    calc getCharShape e st1 c
        = ((getCharShape e st1 c).1, (getCharShape e st1 c).2) := rfl
      _ = (none, (getCharShape e st1 c).2) := by rw [h]
  unfold processChar
  rw [hpair]

/-- Witness for claim C9: a character missing from every source degrades
to a blank advance. -/
theorem claim_C9_witness :
    processChar testEnv { st0 with ctx := { ctx0 with font := "missing" } } 'x'
      = processBlank (getCharShape testEnv
          { st0 with ctx := { ctx0 with font := "missing" } } 'x').2 :=
  (claim_C9_fallback_chain testEnv
    { st0 with ctx := { ctx0 with font := "missing" } } 'x').2
    { st0 with ctx := { ctx0 with font := "missing" } } (by decide)

/-- Claim C1 (counterexample): the word "abc" (three glyphs of width 6)
against a usable line width of 10 is moved whole to a fresh line by the
measure-first check, but `processChar`'s own overflow check then splits it
after two glyphs: its glyphs land on lines 2 and 3, refuting the claim
that no word's glyphs are ever split across two lines. -/
theorem claim_C1_counterexample :
    ¬ (∀ g ∈ (processWord testEnv st0 ['a', 'b', 'c']).glyphs,
        ∀ g2 ∈ (processWord testEnv st0 ['a', 'b', 'c']).glyphs,
          g.line = g2.line) := by
  intro h
  have hmap : (processWord testEnv st0 ['a', 'b', 'c']).glyphs.map Glyph.line
      = [2, 2, 3] := by
    norm_num [processWord, measureWord, processChars, processChar, getCharShape,
      testEnv, testFM, testOptions, st0, ctx0, shapeAdvance, processBlank,
      startNewLine, currentLineHeight, maxLineWidth, effLimit, exceeds,
      LINE_SPACING_SCALE_FACTOR, glyphY, List.foldl]
  have h2 : (2 : Nat) ∈ (processWord testEnv st0 ['a', 'b', 'c']).glyphs.map Glyph.line := by
    rw [hmap]; simp
  have h3 : (3 : Nat) ∈ (processWord testEnv st0 ['a', 'b', 'c']).glyphs.map Glyph.line := by
    rw [hmap]; simp
  obtain ⟨g2, hg2, hl2⟩ := List.mem_map.mp h2
  obtain ⟨g3, hg3, hl3⟩ := List.mem_map.mp h3
  have heq := h g2 hg2 g3 hg3
  rw [hl2, hl3] at heq
  exact absurd heq (by decide)

/-- Claim C1 (amended): a word whose measured width fits within the usable
line width (with nonnegative per-character advances) is never split — the
width is measured first without emitting geometry, a new line is started
before any glyph is emitted if the word would overflow at the current
cursor, and all of the word's glyphs are then emitted on one line.  Only a
word wider than the usable line width itself can still be broken by
`processChar`'s overflow check. -/
theorem claim_C1_word_wrap (e : Env) (st : ProcState) (word : List Char)
    (hadv : ∀ c ∈ word, 0 ≤ charAdvance e st.horizontalAlignment st.ctx c)
    (hfit : fitsLimit (effLimit (maxLineWidth e st)) (measureWord e st word).1) :
    ∃ gl l, (processWord e st word).glyphs = st.glyphs ++ gl ∧
      ∀ g ∈ gl, g.line = l := by
  have hsnd := measureWord_snd e word st
  have hfst := measureWord_fst e word st
  rw [hfst] at hfit
  have hkey : processWord e st word = processChars e
      (if exceeds (effLimit (maxLineWidth e st))
          (st.hOffset + sumAdv e st.horizontalAlignment st.ctx word) = true
        then startNewLine e (measureWord e st word).2
        else (measureWord e st word).2) word := by
    simp only [processWord]
    rw [hsnd, hfst]
    rfl
  rw [hkey]
  by_cases hex : exceeds (effLimit (maxLineWidth e st))
      (st.hOffset + sumAdv e st.horizontalAlignment st.ctx word) = true
  · rw [if_pos hex, hsnd]
    set stM : ProcState := { st with maxFontSize :=
      (if word = [] then st.maxFontSize
       else max st.maxFontSize st.ctx.fontSize) } with hstM
    have hfit2 : fitsLimit (effLimit (maxLineWidth e (startNewLine e stM)))
        ((startNewLine e stM).hOffset +
          sumAdv e (startNewLine e stM).horizontalAlignment (startNewLine e stM).ctx word) := by
      show fitsLimit (effLimit (maxLineWidth e st))
        (0 + sumAdv e st.horizontalAlignment st.ctx word)
      rw [zero_add]
      exact hfit
    have hadv2 : ∀ c ∈ word, 0 ≤ charAdvance e
        (startNewLine e stM).horizontalAlignment (startNewLine e stM).ctx c := hadv
    obtain ⟨gl, hgl, hln⟩ := processChars_sameLine e word (startNewLine e stM) hfit2 hadv2
    refine ⟨gl, (startNewLine e stM).lineCount, ?_, hln⟩
    rw [hgl]
    rfl
  · rw [if_neg hex, hsnd]
    set stM : ProcState := { st with maxFontSize :=
      (if word = [] then st.maxFontSize
       else max st.maxFontSize st.ctx.fontSize) } with hstM
    have hfit2 : fitsLimit (effLimit (maxLineWidth e stM))
        (stM.hOffset + sumAdv e stM.horizontalAlignment stM.ctx word) := by
      show fitsLimit (effLimit (maxLineWidth e st))
        (st.hOffset + sumAdv e st.horizontalAlignment st.ctx word)
      rcases hL : effLimit (maxLineWidth e st) with _ | L
      · exact trivial
      · have hx := hex
        rw [hL] at hx
        simp only [exceeds, decide_eq_true_eq] at hx
        exact not_lt.mp hx
    have hadv2 : ∀ c ∈ word,
        0 ≤ charAdvance e stM.horizontalAlignment stM.ctx c := hadv
    obtain ⟨gl, hgl, hln⟩ := processChars_sameLine e word stM hfit2 hadv2
    refine ⟨gl, stM.lineCount, ?_, hln⟩
    rw [hgl]

/-- Witness for the amended claim C1: the word "a" (width 6 at cursor 0,
limit 10) fits and all its glyphs land on one line. -/
theorem claim_C1_witness :
    ∃ gl l, (processWord testEnv st0 ['a']).glyphs = st0.glyphs ++ gl ∧
      ∀ g ∈ gl, g.line = l :=
  claim_C1_word_wrap testEnv st0 ['a']
    (by
      norm_num [charAdvance, advWith, charShapeOf, testEnv, testFM, testOptions,
        st0, ctx0])
    (by
      norm_num [fitsLimit, effLimit, maxLineWidth, measureWord, getCharShape,
        testEnv, testFM, testOptions, st0, ctx0, shapeAdvance])

/-- Claim C8: in distributed mode with more than one run geometry on the
line, uniform gaps of `(usable - span)/(N-1)` are inserted between
successive runs, so the sum of the resulting inter-run gaps plus the run
widths equals the usable line width exactly (the embedding computes in ℚ,
so "within floating-point epsilon" becomes exact equality); a line with a
single run geometry gets no gap insertion — only the common shift to the
left margin, which preserves its width. -/
theorem claim_C8_distributed (usable lm : Rat) (r : Run) (rest : List Run)
    (hne : rest ≠ [])
    (hch : List.Chain' (fun a b : Run => a.2 ≤ b.1) (r :: rest))
    (hw : ∀ q ∈ r :: rest, q.1 ≤ q.2) :
    (sumGaps (processAlignmentDistributed usable lm (r :: rest)) +
      sumWidths (processAlignmentDistributed usable lm (r :: rest)) = usable) ∧
    (∀ q : Run, processAlignmentDistributed usable lm [q]
      = [(lm, lm + runWidth q)]) := by
  constructor
  · have hlen : 1 < (r :: rest).length := by
      rcases rest with _ | ⟨s, rest2⟩
      · exact absurd rfl hne
      · simp
    have hminx := bboxMinX_of_chain rest r hch hw
    have hmaxx := bboxMaxX_of_chain rest r hch hw
    have hunf : processAlignmentDistributed usable lm (r :: rest)
        = shiftAll (lm - r.1)
            (shiftRuns ((usable - ((lastX r rest).2 - r.1)) /
              (((r :: rest).length : Rat) - 1)) 0 (r :: rest)) := by
      simp only [processAlignmentDistributed]
      rw [hminx, hmaxx, if_pos hlen]
    rw [hunf]
    set gap : Rat := (usable - ((lastX r rest).2 - r.1)) /
      (((r :: rest).length : Rat) - 1) with hgap
    have hstruct : shiftRuns gap 0 (r :: rest)
        = (r.1 + gap * ((0 : Nat) : Rat), r.2 + gap * ((0 : Nat) : Rat)) ::
            shiftRuns gap (0 + 1) rest := rfl
    rw [hstruct]
    have hmapcons : shiftAll (lm - r.1)
        ((r.1 + gap * ((0 : Nat) : Rat), r.2 + gap * ((0 : Nat) : Rat)) ::
          shiftRuns gap (0 + 1) rest)
        = (r.1 + gap * ((0 : Nat) : Rat) + (lm - r.1),
           r.2 + gap * ((0 : Nat) : Rat) + (lm - r.1)) ::
            (shiftRuns gap (0 + 1) rest).map
              (fun q => (q.1 + (lm - r.1), q.2 + (lm - r.1))) := rfl
    rw [hmapcons, telescope]
    have hlast : lastX
        (r.1 + gap * ((0 : Nat) : Rat) + (lm - r.1),
         r.2 + gap * ((0 : Nat) : Rat) + (lm - r.1))
        ((shiftRuns gap (0 + 1) rest).map
          (fun q => (q.1 + (lm - r.1), q.2 + (lm - r.1))))
        = ((lastX r rest).1 + gap * (((0 : Nat) : Rat) + (rest.length : Rat)) + (lm - r.1),
           (lastX r rest).2 + gap * (((0 : Nat) : Rat) + (rest.length : Rat)) + (lm - r.1)) := by
      have h1 := lastX_map (fun q : Run => (q.1 + (lm - r.1), q.2 + (lm - r.1)))
        (shiftRuns gap (0 + 1) rest)
        (r.1 + gap * ((0 : Nat) : Rat), r.2 + gap * ((0 : Nat) : Rat))
      rw [h1, lastX_shiftRuns gap rest 0 r]
    rw [hlast]
    have hlenq : (((r :: rest).length : Rat) - 1) = (rest.length : Rat) := by
      simp [List.length_cons]
    have hlenne : ((rest.length : Rat)) ≠ 0 := by
      rcases rest with _ | ⟨s, rest2⟩
      · exact absurd rfl hne
      · simp only [List.length_cons]
        push_cast
        positivity
    have hcancel : gap * (rest.length : Rat) = usable - ((lastX r rest).2 - r.1) := by
      rw [hgap, hlenq]
      exact div_mul_cancel₀ _ hlenne
    push_cast
    linarith [hcancel]
  · intro q
    simp only [processAlignmentDistributed]
    have h1 : ¬ (1 < ([q] : List Run).length) := by simp
    rw [if_neg h1]
    unfold bboxMinX shiftAll runWidth
    simp only [List.foldl_nil, List.map_cons, List.map_nil]
    have h2 : q.1 + (lm - q.1) = lm := by ring
    have h3 : q.2 + (lm - q.1) = lm + (q.2 - q.1) := by ring
    rw [h2, h3]

/-- Witness for claim C8: three ordered runs of total width 2+1+1 in a
usable width of 10 end up spanning exactly the usable width. -/
theorem claim_C8_witness :
    sumGaps (processAlignmentDistributed 10 1
      [((0 : Rat), (2 : Rat)), (3, 4), (5, 6)]) +
    sumWidths (processAlignmentDistributed 10 1
      [((0 : Rat), (2 : Rat)), (3, 4), (5, 6)]) = 10 :=
  (claim_C8_distributed 10 1 ((0 : Rat), (2 : Rat)) [(3, 4), (5, 6)]
    (by simp)
    (by
      refine List.chain'_cons.mpr ⟨by norm_num, ?_⟩
      refine List.chain'_cons.mpr ⟨by norm_num, ?_⟩
      exact List.chain'_singleton _)
    (by
      intro p hp
      fin_cases hp <;> norm_num)).1

/-- Claim C10: a stacked token with divider `'^'` and both numerator and
denominator non-empty runs neither the superscript nor the subscript
branch: no geometry is emitted, and the horizontal cursor, vertical
cursor, word space, and font-size scale factor end up exactly as before
the token; the only remaining side effect is the width-measurement glyph
lookups' update of the line's tracked maximum font size. -/
theorem claim_C10_caret_frame (e : Env) (st : ProcState)
    (num den : List Char) (hn : num ≠ []) (hd : den ≠ []) :
    (processStack e st num den "^").hOffset = st.hOffset ∧
    (processStack e st num den "^").vOffset = st.vOffset ∧
    (processStack e st num den "^").ctx.wordSpace = st.ctx.wordSpace ∧
    (processStack e st num den "^").ctx.fontSizeScaleFactor
      = st.ctx.fontSizeScaleFactor ∧
    (processStack e st num den "^").glyphs = st.glyphs ∧
    (processStack e st num den "^").lineSegs = st.lineSegs ∧
    (processStack e st num den "^").maxFontSize
      = max st.maxFontSize st.ctx.fontSize := by
  have hne1 : ¬(num ≠ [] ∧ den = []) := fun h => hd h.2
  have hne2 : ¬(num = [] ∧ den ≠ []) := fun h => hn h.1
  simp only [processStack, measureString_snd, measureString_fst,
    calcuateLineParams, if_pos rfl, if_neg hne1, if_neg hne2, if_neg hn,
    if_neg hd, max_assoc, max_self]
  refine ⟨?_, ?_, ?_, ?_, ?_, ?_, ?_⟩ <;> first | rfl | trivial

/-- Witness for claim C10 on the concrete fixture. -/
theorem claim_C10_witness :
    (processStack testEnv st0 ['1'] ['2'] "^").hOffset = st0.hOffset ∧
    (processStack testEnv st0 ['1'] ['2'] "^").vOffset = st0.vOffset ∧
    (processStack testEnv st0 ['1'] ['2'] "^").ctx.wordSpace = st0.ctx.wordSpace ∧
    (processStack testEnv st0 ['1'] ['2'] "^").ctx.fontSizeScaleFactor
      = st0.ctx.fontSizeScaleFactor ∧
    (processStack testEnv st0 ['1'] ['2'] "^").glyphs = st0.glyphs ∧
    (processStack testEnv st0 ['1'] ['2'] "^").lineSegs = st0.lineSegs ∧
    (processStack testEnv st0 ['1'] ['2'] "^").maxFontSize
      = max st0.maxFontSize st0.ctx.fontSize :=
  claim_C10_caret_frame testEnv st0 ['1'] ['2'] (by simp) (by simp)

/-- Claim C7: for a stacked fraction (divider `'/'` or `'#'`), the
numerator and denominator widths are measured at the current size with the
tracking (word space) forced to 1, the divider segment spans exactly
`max(numerator width, denominator width)` starting at the current cursor,
and each of the two strings starts at the cursor shifted right by half the
difference between the shared stack width and its own width — so the
narrower string is centered within the stack span.  Stated for a line
without a width limit and with decorations off, so no wrap interrupts the
stack. -/
theorem claim_C7_stack_fraction (e : Env) (st : ProcState)
    (num den : List Char) (divider : String)
    (hdiv : divider = "/" ∨ divider = "#")
    (hlim : effLimit (maxLineWidth e st) = none)
    (hu : st.ctx.underline = false) (ho : st.ctx.overline = false)
    (hs : st.ctx.strikeThrough = false)
    (hn : num ≠ []) (hd : den ≠ []) :
    (measureString e
        { st with
          hOffset := st.hOffset
          ctx := { st.ctx with wordSpace := 1 } } num).1
      = stringWidth e { st.ctx with wordSpace := 1 } num ∧
    (processStack e st num den divider).lineSegs = st.lineSegs ++
      [Seg.mk st.lineCount st.hOffset
        (st.vOffset - st.ctx.fontSize * (8 / 10))
        (st.hOffset + max (stringWidth e { st.ctx with wordSpace := 1 } num)
          (stringWidth e { st.ctx with wordSpace := 1 } den))
        (st.vOffset - st.ctx.fontSize * (8 / 10))] ∧
    (processStack e st num den divider).glyphs = st.glyphs ++
      (runGlyphs e st.horizontalAlignment { st.ctx with wordSpace := 1 }
        st.lineCount
        (glyphY e.options.flowDirection
          (st.vOffset + st.ctx.fontSize * (3 / 10)) st.ctx.fontSize)
        (st.hOffset +
          (max (stringWidth e { st.ctx with wordSpace := 1 } num)
            (stringWidth e { st.ctx with wordSpace := 1 } den)
           - stringWidth e { st.ctx with wordSpace := 1 } num) / 2) num ++
      runGlyphs e st.horizontalAlignment { st.ctx with wordSpace := 1 }
        st.lineCount
        (glyphY e.options.flowDirection
          (st.vOffset - st.ctx.fontSize * (6 / 10)) st.ctx.fontSize)
        (st.hOffset +
          (max (stringWidth e { st.ctx with wordSpace := 1 } num)
            (stringWidth e { st.ctx with wordSpace := 1 } den)
           - stringWidth e { st.ctx with wordSpace := 1 } den) / 2) den) ∧
    (processStack e st num den divider).hOffset = st.hOffset +
      max (stringWidth e { st.ctx with wordSpace := 1 } num)
        (stringWidth e { st.ctx with wordSpace := 1 } den) ∧
    (processStack e st num den divider).vOffset = st.vOffset ∧
    (processStack e st num den divider).ctx = st.ctx := by
  have hne : ¬(divider = "^") := by
    rcases hdiv with rfl | rfl <;> decide
  refine ⟨measureString_fst e num _, ?_⟩
  simp only [processStack, measureString_snd, measureString_fst,
    if_neg hne, if_neg hn, if_neg hd, if_pos hdiv]
  rw [processChars_noLimit e num]
  rotate_left
  · exact hlim
  · exact hu
  · exact ho
  · exact hs
  rw [processChars_noLimit e den]
  rotate_left
  · exact hlim
  · exact hu
  · exact ho
  · exact hs
  refine ⟨?_, ?_, ?_, ?_, ?_⟩ <;>
    first
      | trivial
      | rfl
      | simp [List.append_assoc]

/-- Witness for claim C7: numerator "1" (width 4) and denominator "2"
(width 6) — the stack advances the cursor by the shared width
max(4, 6) = 6. -/
theorem claim_C7_witness :
    (processStack fracEnv st0 ['1'] ['2'] "/").hOffset = st0.hOffset +
      max (stringWidth fracEnv { st0.ctx with wordSpace := 1 } ['1'])
        (stringWidth fracEnv { st0.ctx with wordSpace := 1 } ['2']) :=
  (claim_C7_stack_fraction fracEnv st0 ['1'] ['2'] "/" (Or.inl rfl)
    (by norm_num [effLimit, maxLineWidth, fracEnv, testOptions, st0])
    rfl rfl rfl (by simp) (by simp)).2.2.2.1

end MTextRenderer
